import Mathlib

set_option linter.unusedVariables false

/- Shallow embedding of the oswstest load-test harness (Go).
   Embedded parts:
   - config.go: configuration constants and the TestResult accumulator
     (Add, AddError, Count, ErrCount, CountBoth, min, max, ave);
   - client.go: the bounded retry loops of Connect and Login, the
     per-client listener ExpectData together with SetChannels and
     ClearChannels, the worker pools connectClients and sendClients
     (as an interleaving state machine), and listenToClients;
   - test.go: the precondition and single write of OneWriteTest.
   Network I/O (websocket dial results, HTTP status codes, inbound
   messages) is abstracted as explicit input sequences; the xxhash
   function used by hashData is an external library and is passed as an
   explicit function parameter. -/

/- Configuration constants from config.go. -/

def MaxLoginAttemts : Nat := 1

def MaxConnectionAttemts : Nat := 3

def ParallelConnections : Nat := 5

/- Error values that flow through the error channels.  client.go
   produces either a forwarded websocket error (ExpectData's errChan
   case) or a hash-mismatch error (the expect check). -/

inductive ErrData where
  | wsErr (e : Nat)
  | hashMismatch (expected got : Nat)
deriving DecidableEq, Repr

/- TestResult from config.go.  Durations (Go time.Duration, an int64
   nanosecond count) are modelled as Int; the magnitudes occurring in
   the claims are far below 2^63, so wrap-around does not matter. -/

structure TestResult where
  values : List Int
  errors : List ErrData
  description : String
deriving DecidableEq, Repr

/- Add appends a duration to t.values (config.go, TestResult.Add). -/
def TestResult.Add (t : TestResult) (value : Int) : TestResult :=
  { t with values := t.values ++ [value] }

/- AddError appends an error to t.errors (config.go, TestResult.AddError). -/
def TestResult.AddError (t : TestResult) (e : ErrData) : TestResult :=
  { t with errors := t.errors ++ [e] }

def TestResult.Count (t : TestResult) : Nat := t.values.length

def TestResult.ErrCount (t : TestResult) : Nat := t.errors.length

def TestResult.CountBoth (t : TestResult) : Nat := t.Count + t.ErrCount

/- min from config.go: the named return m starts as the zero value; the
   loop overwrites it with the first element (i == 0) and then keeps the
   smaller of m and each later element. -/
def TestResult.min (t : TestResult) : Int :=
  match t.values with
  | [] => 0
  | v :: rest => rest.foldl (fun m x => if x < m then x else m) v

/- max from config.go: m starts at the zero value 0 and keeps the larger
   of m and each element. -/
def TestResult.max (t : TestResult) : Int :=
  t.values.foldl (fun m x => if x > m then x else m) 0

/- ave from config.go: sums the values, returns 0 for an empty
   collection, otherwise the truncated (toward zero, as in Go) integer
   division of the sum by the length. -/
def TestResult.ave (t : TestResult) : Int :=
  if t.values.length = 0 then 0
  else Int.tdiv (t.values.foldl (fun a v => a + v) 0) (t.values.length : Int)

/- A sequence of mutating operations on a TestResult, as performed by a
   scenario's aggregation loop (one Add or AddError per channel
   receive). -/

inductive TROp where
  | add (v : Int)
  | addError (e : ErrData)
deriving DecidableEq, Repr

def applyOps (t : TestResult) (ops : List TROp) : TestResult :=
  ops.foldl (fun t op => match op with
    | TROp.add v => t.Add v
    | TROp.addError e => t.AddError e) t

/- Outcome of one websocket dial attempt inside client.Connect
   (client.go).  overload is the ErrBadHandshake-with-status-503 case,
   fail is any other dial error. -/

inductive DialResult where
  | ok
  | overload
  | fail
deriving DecidableEq, Repr

inductive ConnKind where
  | connected
  | hardError
  | running
deriving DecidableEq, Repr

/- Result of the Connect retry loop: its kind, the number of dial
   attempts that were made, and the final value of loginErrorCount (the
   counter that client.go compares against MaxConnectionAttemts). -/
structure ConnRes where
  kind : ConnKind
  used : Nat
  fails : Nat
deriving DecidableEq, Repr

/- The retry loop of client.Connect (client.go lines 121-145), driven
   by the sequence of dial outcomes the network produces.  An overload
   (503) outcome sleeps and continues WITHOUT incrementing
   loginErrorCount; any other error increments it; a success breaks.
   The kind running means the outcome sequence was exhausted while the
   loop was still going (the real loop would still be dialing). -/
def connectLoop (maxA : Nat) (outs : List DialResult) (cnt used : Nat) : ConnRes :=
  if cnt < maxA then
    match outs with
    | [] => ConnRes.mk ConnKind.running used cnt
    | DialResult.ok :: _ => ConnRes.mk ConnKind.connected (used + 1) cnt
    | DialResult.overload :: rest => connectLoop maxA rest cnt (used + 1)
    | DialResult.fail :: rest => connectLoop maxA rest (cnt + 1) (used + 1)
  else ConnRes.mk ConnKind.hardError used cnt

/- Outcome of one HTTP POST inside client.Login (client.go). -/

inductive PostResult where
  | transportErr
  | status (code : Nat)
deriving DecidableEq, Repr

inductive LoginKind where
  | ok
  | transportError
  | hardError (code : Nat)
  | running
deriving DecidableEq, Repr

structure LoginRes where
  kind : LoginKind
  used : Nat
deriving DecidableEq, Repr

/- The retry loop of client.Login (client.go lines 244-273).  A
   transport error returns immediately; a 5xx status increments
   loginErrorCount, sleeps and retries while the counter is below
   MaxLoginAttemts; any other status breaks out of the loop, after
   which a status other than 200 is turned into a hard error.  last
   remembers the most recent status code for the exhausted case. -/
def loginLoop (maxA : Nat) (outs : List PostResult) (cnt used last : Nat) : LoginRes :=
  if cnt < maxA then
    match outs with
    | [] => LoginRes.mk LoginKind.running used
    | PostResult.transportErr :: _ => LoginRes.mk LoginKind.transportError (used + 1)
    | PostResult.status c :: rest =>
      if c < 500 ∨ 600 ≤ c then
        if c = 200 then LoginRes.mk LoginKind.ok (used + 1)
        else LoginRes.mk (LoginKind.hardError c) (used + 1)
      else loginLoop maxA rest (cnt + 1) (used + 1) c
  else LoginRes.mk (LoginKind.hardError last) used

/- Channel-attachment state of a client (client.go).  true means the
   corresponding channel field (wsRead respectively wsError) is non-nil,
   i.e. a listener is attached. -/

structure ChanState where
  wsRead : Bool
  wsError : Bool
deriving DecidableEq, Repr

/- SetChannels (client.go lines 175-181): if either channel field is
   already set, log.Fatalf aborts the program (modelled as none);
   otherwise both fields are set.  ExpectData always passes freshly made
   (non-nil) channels. -/
def SetChannels (s : ChanState) : Option ChanState :=
  if s.wsRead ∨ s.wsError then none
  else some (ChanState.mk true true)

/- ClearChannels (client.go lines 183-186): both fields back to nil. -/
def ClearChannels (_ : ChanState) : ChanState := ChanState.mk false false

/- One event arriving on a connected client's inbound channels: a data
   payload (readChan) or a websocket error (errChan).  Payloads are
   abstract Nat identifiers; ExpectData only ever inspects a payload
   through hashData, which is passed as a function parameter below. -/

inductive InEv where
  | data (payload : Nat)
  | err (e : Nat)
deriving DecidableEq, Repr

/- A report delivered by ExpectData on its two output channels: one
   duration on sinceTime, or one error on err. -/

inductive Report where
  | sample (d : Int)
  | error (e : ErrData)
deriving DecidableEq, Repr

/- The receive loop of ExpectData (client.go lines 218-237): consume
   events until count messages have arrived or one error arrived.  A
   payload whose hash differs from a non-zero expect produces one
   hash-mismatch error and returns; a websocket error is forwarded as
   one error and returns; after count messages one duration sample is
   sent.  dur stands for the time.Since value sent on sinceTime; the
   clock is not modelled, so it is a parameter.  none means the event
   sequence ran out while the loop was still blocked in its select (the
   goroutine would hang and the deferred finish would never fire). -/
def expectLoop (hash : Nat → Nat) (dur : Int) (expect : Nat) :
    List InEv → Nat → Option (List Report)
  | _, 0 => some [Report.sample dur]
  | [], _ + 1 => none
  | InEv.data p :: rest, k + 1 =>
    if expect ≠ 0 ∧ expect ≠ hash p then
      some [Report.error (ErrData.hashMismatch expect (hash p))]
    else expectLoop hash dur expect rest k
  | InEv.err e :: _, _ + 1 => some [Report.error (ErrData.wsErr e)]

/- ExpectData (client.go lines 198-238).  conn records which of the two
   one-shot connection channels closed: true = waitForConnect (the
   client connected), false = connectionError (the connection failed).
   On a failed connection the function returns at once with no report;
   the deferred finish fires in every returning case.  some rs means the
   goroutine returned (finish delivered exactly once) with reports rs;
   none means it is still blocked (no finish, no further report). -/
def ExpectDataRun (hash : Nat → Nat) (dur : Int) (conn : Bool)
    (events : List InEv) (count : Nat) (expect : Nat) : Option (List Report) :=
  if conn then expectLoop hash dur expect events count
  else some []

/- The inputs one client contributes to a listening phase. -/

structure ActorIn where
  conn : Bool
  dur : Int
  events : List InEv
deriving DecidableEq, Repr

/- The fan-out of ExpectData over a client list with a common expect
   value, together with the finish-counting loop: listenToClients
   (client.go lines 420-438) starts one ExpectData per client and sets
   its done flag only after receiving one finish signal per client.
   some rls: every client's ExpectData returned (all finish signals
   received, done becomes true) and client i delivered the reports
   rls[i].  none: some client never finished, done stays false. -/
def collectWith (hash : Nat → Nat) (count expect : Nat) :
    List ActorIn → Option (List (List Report))
  | [] => some []
  | a :: rest =>
    match ExpectDataRun hash a.dur a.conn a.events count expect,
          collectWith hash count expect rest with
    | some r, some rs => some (r :: rs)
    | _, _ => none

/- listenToClients passes the hard-coded expect value 0 to every
   ExpectData call (client.go line 428, "TODO: Expected data"). -/
def listenRun (hash : Nat → Nat) (actors : List ActorIn) (count : Nat) :
    Option (List (List Report)) :=
  collectWith hash count 0 actors

def totalReports (rls : List (List Report)) : Nat :=
  (rls.map List.length).sum

/- The aggregation loop's recording of one received report into a
   TestResult: a duration goes through Add, an error through AddError
   (test.go aggregation loops). -/
def recordReport (t : TestResult) : Report → TestResult
  | Report.sample d => t.Add d
  | Report.error e => t.AddError e

def foldReports (t : TestResult) (rs : List Report) : TestResult :=
  rs.foldl recordReport t

def foldAll (t : TestResult) (rls : List (List Report)) : TestResult :=
  foldReports t rls.flatten

/- Interleaving model of the two worker pools, connectClients
   (client.go lines 339-374) and sendClients (lines 378-413).  Both
   share the same shape: the launched goroutine defers, in execution
   order, close(toWorker), wg.Wait() and the assignment done = true; it
   starts P worker goroutines, hands each client over the unbuffered
   channel toWorker, and wg is initialised by wg.Add(len(clients)).
   They differ in where wg.Done() is called:
   - connectClients (modelled by variant = true): inside the worker's
     range loop, once per client, AFTER the client's report was sent;
   - sendClients (modelled by variant = false): after the worker's
     range loop, once per WORKER, when the worker exits.
   A state records the positions of the feeding goroutine and of every
   worker; an action is one atomic transition of one goroutine;
   disabled actions (a goroutine that is blocked) do not apply.  The
   wg counter is an Int, since sendClients can drive it negative (in Go
   that call panics; the trace exhibited below reaches its bad state
   while the counter is still non-negative). -/

inductive WorkerSt where
  | idle
  | busy
  | donePend
  | exited
deriving DecidableEq, Repr

inductive MainSt where
  | sending
  | closedCh
  | doneSet
deriving DecidableEq, Repr

structure PoolState where
  variant : Bool
  n : Nat
  sent : Nat
  main : MainSt
  workers : List WorkerSt
  wg : Int
  delivered : Nat
deriving DecidableEq, Repr

inductive PoolAct where
  | handoff (w : Nat)
  | closeCh
  | deliver (w : Nat)
  | doneCall (w : Nat)
  | exitW (w : Nat)
  | waitReturn
deriving DecidableEq, Repr

def poolInit (variant : Bool) (n p : Nat) : PoolState :=
  PoolState.mk variant n 0 MainSt.sending (List.replicate p WorkerSt.idle) (n : Int) 0

/- One atomic step.  handoff: the feeder's send on the unbuffered
   toWorker rendezvouses with an idle worker's receive.  closeCh: after
   the last client was handed over, the deferred close runs.  deliver:
   a worker holding a client finishes Connect respectively Send and its
   report is received from errChan or the duration channel; in the
   connectClients variant the worker then still has to run wg.Done
   (donePend), in the sendClients variant it returns to the range
   receive at once.  doneCall: the per-client wg.Done of connectClients.
   exitW: a worker's range receive observes the closed channel and the
   worker returns - in the sendClients variant this is where its single
   wg.Done runs.  waitReturn: wg.Wait returns (counter zero) and the
   deferred done = true runs. -/
def poolStep (s : PoolState) : PoolAct → Option PoolState
  | PoolAct.handoff w =>
    if s.main = MainSt.sending ∧ s.sent < s.n ∧ s.workers.get? w = some WorkerSt.idle then
      some { s with sent := s.sent + 1, workers := s.workers.set w WorkerSt.busy }
    else none
  | PoolAct.closeCh =>
    if s.main = MainSt.sending ∧ s.sent = s.n then
      some { s with main := MainSt.closedCh }
    else none
  | PoolAct.deliver w =>
    if s.workers.get? w = some WorkerSt.busy then
      some { s with delivered := s.delivered + 1,
                    workers := s.workers.set w
                      (if s.variant then WorkerSt.donePend else WorkerSt.idle) }
    else none
  | PoolAct.doneCall w =>
    if s.variant = true ∧ s.workers.get? w = some WorkerSt.donePend then
      some { s with wg := s.wg - 1, workers := s.workers.set w WorkerSt.idle }
    else none
  | PoolAct.exitW w =>
    if s.main ≠ MainSt.sending ∧ s.workers.get? w = some WorkerSt.idle then
      some { s with workers := s.workers.set w WorkerSt.exited,
                    wg := if s.variant then s.wg else s.wg - 1 }
    else none
  | PoolAct.waitReturn =>
    if s.main = MainSt.closedCh ∧ s.wg = 0 then
      some { s with main := MainSt.doneSet }
    else none

/- Run a schedule: disabled actions are skipped, so every action list
   yields a state and the reachable states are exactly the states of
   the valid interleavings. -/
def poolRun (s : PoolState) : List PoolAct → PoolState
  | [] => s
  | a :: rest => poolRun ((poolStep s a).getD s) rest

/- Number of workers currently in state t. -/
def countW (ws : List WorkerSt) (t : WorkerSt) : Nat :=
  match ws with
  | [] => 0
  | w :: rest => (if w = t then 1 else 0) + countW rest t

/- Inductive invariant of the pool state machine.  countW busy workers
   plus delivered reports equals the number of handed-off clients,
   hand-offs never exceed the batch size, and in the connectClients
   variant the wg counter equals the batch size minus the wg.Done calls
   already made (a donePend worker has delivered but not yet called
   wg.Done), which forces the done flag to imply full delivery. -/
def PoolInv (s : PoolState) : Prop :=
  countW s.workers WorkerSt.busy + s.delivered = s.sent ∧
  s.sent ≤ s.n ∧
  (s.variant = true →
    countW s.workers WorkerSt.donePend ≤ s.delivered ∧
    s.wg + (s.delivered : Int)
      = (s.n : Int) + (countW s.workers WorkerSt.donePend : Int) ∧
    (s.main = MainSt.doneSet → s.delivered = s.n))

/- The scenario-facing part of OneWriteTest (test.go lines 337-352): a
   client is summarised by whether the Go type assertion
   clients[0].(AdminClient) would succeed, its isAdmin flag and its
   IsConnected state. -/

structure ClientInfo where
  isAdminType : Bool
  isAdmin : Bool
  isConnected : Bool
deriving DecidableEq, Repr

def qualifies (c : ClientInfo) : Bool :=
  c.isAdminType && c.isAdmin && c.isConnected

inductive OWOutcome where
  | crashEmpty
  | fatalPrecondition
  | fatalSend
  | wrote (writerIndex : Nat) (writes : Nat)
deriving DecidableEq, Repr

/- The precondition check and the single Send of OneWriteTest (test.go
   lines 337-352).  clients[0] on an empty slice is a runtime index
   panic; a first client that is not a connected AdminClient hits
   log.Fatalf; otherwise exactly one Send is issued through the first
   client (sendOk tells whether that Send returned nil), after which
   the scenario proceeds to its listening phase. -/
def OneWriteTestStart (clients : List ClientInfo) (sendOk : Bool) : OWOutcome :=
  match clients with
  | [] => OWOutcome.crashEmpty
  | c :: _ =>
    if !(qualifies c) then OWOutcome.fatalPrecondition
    else if sendOk then OWOutcome.wrote 0 1
    else OWOutcome.fatalSend

/- A schedule of the sendClients pool with two clients and three
   workers: both clients are handed off, the feeder closes toWorker,
   the never-used worker 2 exits its range loop and runs its wg.Done,
   worker 0 delivers its report, exits and runs its wg.Done - the
   counter (initialised to len(clients) = 2) reaches zero, wg.Wait
   returns and done is set while worker 1 still holds an undelivered
   report. -/
def c1Schedule : List PoolAct :=
  [PoolAct.handoff 0, PoolAct.handoff 1, PoolAct.closeCh, PoolAct.exitW 2,
   PoolAct.deliver 0, PoolAct.exitW 0, PoolAct.waitReturn]

def c1Final : PoolState := poolRun (poolInit false 2 3) c1Schedule

/-- Claim C1: for every batch of N clients handed to connectClients or
sendClients, exactly N reports are delivered and the done flag becomes
true only after all N reports were delivered.  The code violates this
in sendClients: wg.Add is called with len(clients) but wg.Done runs
once per WORKER (after the range loop), so with 2 clients and 3 workers
the exhibited schedule sets the flag after a single delivered report,
while worker 1 still holds the second, undelivered report; the wg
counter never went negative up to that point. -/
theorem C1_sendClients_flag_before_delivery :
    c1Final.main = MainSt.doneSet ∧ c1Final.delivered = 1 ∧ c1Final.n = 2 ∧
    c1Final.workers.get? 1 = some WorkerSt.busy ∧ c1Final.wg = 0 := by decide

/-- Claim C2 counterexample: a listener over M = 1 actor with count
k = 2 whose connection succeeded and whose channel produces two
messages delivers exactly ONE report (the single duration sent after
the loop), not M * k = 2 reports as the claim computes: ExpectData
sends no per-message success report. -/
theorem C2_counterexample_two_messages_one_report :
    listenRun (fun p => p) [ActorIn.mk true 0 [InEv.data 5, InEv.data 5]] 2
      = some [[Report.sample 0]] ∧
    totalReports [[Report.sample 0]] = 1 ∧ (1 : Nat) ≠ 1 * 2 := by decide

/-- Claim C4: for an empty sample collection min, max and mean are all
0; for the samples 10ms, 20ms, 30ms (in nanoseconds) the mean is 20ms,
the min 10ms and the max 30ms.  The statistics are plain functions of
the stored values list - nothing in TestResult caches them. -/
theorem C4_stats_empty_and_concrete :
    (TestResult.mk [] [] "").min = 0 ∧ (TestResult.mk [] [] "").max = 0 ∧
    (TestResult.mk [] [] "").ave = 0 ∧
    (TestResult.mk [10000000, 20000000, 30000000] [] "").ave = 20000000 ∧
    (TestResult.mk [10000000, 20000000, 30000000] [] "").min = 10000000 ∧
    (TestResult.mk [10000000, 20000000, 30000000] [] "").max = 30000000 := by decide

/-- Claim C5 counterexample: eight consecutive server-overload (503
bad-handshake) dial outcomes leave Connect's retry loop still running
after eight attempts with loginErrorCount still 0 - the overload branch
retries without counting, so the number of retries on server-overload
failures is NOT bounded by MaxConnectionAttemts = 3. -/
theorem C5_counterexample_unbounded_overload_retry :
    connectLoop MaxConnectionAttemts (List.replicate 8 DialResult.overload) 0 0
      = ConnRes.mk ConnKind.running 8 0 ∧ MaxConnectionAttemts < 8 := by decide

/-- Claim C7 counterexample: a client set whose first client is not an
admin but whose second client is a connected administrative client
makes OneWriteTest abort fatally at its precondition check instead of
issuing one write through the qualifying client - the check inspects
only clients[0]. -/
theorem C7_counterexample_qualifying_not_first :
    OneWriteTestStart [ClientInfo.mk false false true, ClientInfo.mk true true true] true
      = OWOutcome.fatalPrecondition ∧
    qualifies (ClientInfo.mk true true true) = true := by decide

/-- Claim C9: calling SetChannels while a listener is already attached
(either channel field non-nil) hits log.Fatalf (modelled as none)
instead of attaching a second listener, and after an intervening
ClearChannels the call succeeds again; a successful SetChannels always
starts from the fully-cleared state, so at most one listener is ever
attached. -/
theorem C9_second_setChannels_fatal (s s' : ChanState)
    (h : SetChannels s = some s') :
    SetChannels s' = none ∧
    SetChannels (ClearChannels s') = some (ChanState.mk true true) ∧
    s = ChanState.mk false false := by
  unfold SetChannels at h
  split at h
  · exact absurd h (by simp)
  · rename_i hcond
    injection h with h'
    subst h'
    refine ⟨by simp [SetChannels], by simp [SetChannels, ClearChannels], ?_⟩
    cases s with
    | mk r e =>
      simp only [not_or] at hcond
      simp_all [ChanState.mk.injEq]

/-- Witness for C9 at the concrete cleared state. -/
theorem C9_witness :
    SetChannels (ChanState.mk true true) = none ∧
    SetChannels (ClearChannels (ChanState.mk true true)) = some (ChanState.mk true true) ∧
    ChanState.mk false false = ChanState.mk false false :=
  C9_second_setChannels_fatal (ChanState.mk false false) (ChanState.mk true true) (by decide)

/-- Claim C10: a client whose connection establishment failed (its
connectionError channel closed) returns from ExpectData at once: the
deferred finish fires (the run is some), no report is delivered on
either output channel, and listenToClients still counts that finish
toward its completion flag - the listener over that client plus any
rest completes exactly when the rest completes, with an empty report
list contributed by the failed client. -/
theorem C10_failed_connection_zero_reports (hash : Nat → Nat) (dur : Int)
    (events : List InEv) (count expect : Nat) (rest : List ActorIn) :
    ExpectDataRun hash dur false events count expect = some [] ∧
    listenRun hash (ActorIn.mk false dur events :: rest) count
      = (listenRun hash rest count).map (fun rls => [] :: rls) := by
  constructor
  · rfl
  · simp only [listenRun, collectWith, ExpectDataRun]
    cases collectWith hash count 0 rest <;> simp

/-- Every value the ExpectData receive loop returns is a singleton
report: one duration after count messages, or one error. -/
lemma expectLoop_length (hash : Nat → Nat) (dur : Int) (expect : Nat) :
    ∀ (evs : List InEv) (k : Nat) (r : List Report),
      expectLoop hash dur expect evs k = some r → r.length = 1 := by
  intro evs
  induction evs with
  | nil =>
    intro k r h
    cases k with
    | zero =>
      simp only [expectLoop, Option.some.injEq] at h
      subst h; rfl
    | succ j => simp [expectLoop] at h
  | cons e rest ih =>
    intro k r h
    cases k with
    | zero =>
      simp only [expectLoop, Option.some.injEq] at h
      subst h; rfl
    | succ j =>
      cases e with
      | data p =>
        rw [expectLoop] at h
        split at h
        · simp only [Option.some.injEq] at h
          subst h; rfl
        · exact ih j r h
      | err e' =>
        simp only [expectLoop, Option.some.injEq] at h
        subst h; rfl

/-- A finishing ExpectData call contributes exactly one report when the
connection succeeded and none when it failed. -/
lemma ExpectDataRun_length (hash : Nat → Nat) (dur : Int) (conn : Bool)
    (evs : List InEv) (k expect : Nat) (r : List Report)
    (h : ExpectDataRun hash dur conn evs k expect = some r) :
    r.length = if conn then 1 else 0 := by
  cases conn with
  | false =>
    simp only [ExpectDataRun, Bool.false_eq_true, if_false, Option.some.injEq] at h
    subst h; rfl
  | true =>
    simp only [ExpectDataRun, if_true] at h
    simpa using expectLoop_length hash dur expect evs k r h

/-- Shape of a completed listening phase: one entry per actor, each of
length one (connection succeeded) or zero (connection failed), so the
total report count is the number of actors whose connection
succeeded. -/
lemma collectWith_lengths (hash : Nat → Nat) (count expect : Nat) :
    ∀ (actors : List ActorIn) (rls : List (List Report)),
      collectWith hash count expect actors = some rls →
      rls.length = actors.length ∧
      List.Forall₂ (fun (a : ActorIn) (r : List Report) =>
        r.length = if a.conn then 1 else 0) actors rls ∧
      totalReports rls = (actors.filter (fun a => a.conn)).length := by
  intro actors
  induction actors with
  | nil =>
    intro rls h
    simp only [collectWith, Option.some.injEq] at h
    subst h
    exact ⟨rfl, List.Forall₂.nil, by simp [totalReports]⟩
  | cons a rest ih =>
    intro rls h
    rw [collectWith] at h
    cases ha : ExpectDataRun hash a.dur a.conn a.events count expect with
    | none => rw [ha] at h; simp at h
    | some r =>
      cases hrest : collectWith hash count expect rest with
      | none => rw [ha, hrest] at h; simp at h
      | some rs =>
        rw [ha, hrest] at h
        simp only [Option.some.injEq] at h
        subst h
        obtain ⟨hl, hf, ht⟩ := ih rs hrest
        have hr := ExpectDataRun_length hash a.dur a.conn a.events count expect r ha
        refine ⟨by simp [hl], List.Forall₂.cons hr hf, ?_⟩
        simp only [totalReports, List.map_cons, List.sum_cons, List.filter_cons]
        cases hconn : a.conn with
        | true =>
          rw [hconn] at hr
          simp only [if_true] at hr
          simp only [totalReports] at ht
          simp [hr, ht] <;> omega
        | false =>
          rw [hconn] at hr
          simp only [Bool.false_eq_true, if_false] at hr
          simp only [totalReports] at ht
          simp [hr, ht] <;> omega

/-- Claim C2 (amended): when the listener completes (all finish signals
received), every actor has contributed at most one report - exactly one
(a single duration sample after consuming count messages, or a single
error) when its connection succeeded, and zero when its connection
failed - so the total number of reports equals the number of actors
whose connection succeeded, independent of the per-actor count k; it is
NOT M times k. -/
theorem C2_per_actor_single_report (hash : Nat → Nat) (actors : List ActorIn)
    (k : Nat) (rls : List (List Report))
    (h : listenRun hash actors k = some rls) :
    rls.length = actors.length ∧
    List.Forall₂ (fun (a : ActorIn) (r : List Report) =>
      r.length = if a.conn then 1 else 0) actors rls ∧
    totalReports rls = (actors.filter (fun a => a.conn)).length :=
  collectWith_lengths hash k 0 actors rls h

/-- Witness for C2 at a concrete two-actor listener (one connected
actor receiving its single message, one failed actor). -/
theorem C2_per_actor_single_report_witness :
    ([[Report.sample 0], []] : List (List Report)).length
        = ([ActorIn.mk true 0 [InEv.data 3], ActorIn.mk false 0 []] : List ActorIn).length ∧
    List.Forall₂ (fun (a : ActorIn) (r : List Report) =>
      r.length = if a.conn then 1 else 0)
      [ActorIn.mk true 0 [InEv.data 3], ActorIn.mk false 0 []]
      [[Report.sample 0], []] ∧
    totalReports [[Report.sample 0], []]
      = (([ActorIn.mk true 0 [InEv.data 3], ActorIn.mk false 0 []] : List ActorIn).filter
          (fun a => a.conn)).length :=
  C2_per_actor_single_report (fun p => p)
    [ActorIn.mk true 0 [InEv.data 3], ActorIn.mk false 0 []] 1
    [[Report.sample 0], []] (by decide)

/-- Recording one report grows CountBoth by exactly one. -/
lemma recordReport_countBoth (t : TestResult) (r : Report) :
    (recordReport t r).CountBoth = t.CountBoth + 1 := by
  cases r <;>
    simp [recordReport, TestResult.Add, TestResult.AddError, TestResult.CountBoth,
      TestResult.Count, TestResult.ErrCount] <;>
    omega

/-- Folding a report list grows CountBoth by exactly its length. -/
lemma foldReports_countBoth (rs : List Report) :
    ∀ t : TestResult, (foldReports t rs).CountBoth = t.CountBoth + rs.length := by
  induction rs with
  | nil => intro t; simp [foldReports]
  | cons r rest ih =>
    intro t
    have : foldReports t (r :: rest) = foldReports (recordReport t r) rest := rfl
    rw [this, ih, recordReport_countBoth]
    simp
    omega

/-- One Add or AddError grows CountBoth by exactly one. -/
lemma applyOps_one_countBoth (t : TestResult) (op : TROp) :
    (applyOps t [op]).CountBoth = t.CountBoth + 1 := by
  cases op <;>
    simp [applyOps, TestResult.Add, TestResult.AddError, TestResult.CountBoth,
      TestResult.Count, TestResult.ErrCount] <;>
    omega

/-- CountBoth never decreases under any operation sequence. -/
lemma applyOps_countBoth_mono (ops : List TROp) :
    ∀ t : TestResult, t.CountBoth ≤ (applyOps t ops).CountBoth := by
  induction ops with
  | nil => intro t; simp [applyOps]
  | cons op rest ih =>
    intro t
    have h1 : applyOps t (op :: rest) = applyOps (applyOps t [op]) rest := rfl
    rw [h1]
    have := ih (applyOps t [op])
    have h2 := applyOps_one_countBoth t op
    omega

/-- Claim C3: Count plus ErrCount is monotonically non-decreasing under
every sequence of Add and AddError operations, and the TestResult built
from a completed listening phase over M actors has CountBoth at most M
(each actor contributes at most one report). -/
theorem C3_countBoth_monotone_and_bounded :
    (∀ (t : TestResult) (ops : List TROp),
        t.CountBoth ≤ (applyOps t ops).CountBoth) ∧
    (∀ (hash : Nat → Nat) (actors : List ActorIn) (k : Nat)
        (rls : List (List Report)),
        listenRun hash actors k = some rls →
        (foldAll (TestResult.mk [] [] "") rls).CountBoth ≤ actors.length) := by
  constructor
  · intro t ops; exact applyOps_countBoth_mono ops t
  · intro hash actors k rls h
    obtain ⟨hl, hf, ht⟩ := collectWith_lengths hash k 0 actors rls h
    have hfold := foldReports_countBoth rls.flatten (TestResult.mk [] [] "")
    have hflat : rls.flatten.length = totalReports rls := by
      simp [totalReports, List.length_flatten]
    have hle : (actors.filter (fun a => a.conn)).length ≤ actors.length :=
      List.length_filter_le _ actors
    have hempty : (TestResult.mk [] [] "").CountBoth = 0 := rfl
    simp only [foldAll]
    omega

/-- Witness for C3: monotonicity at one concrete Add, and the listener
bound at a concrete one-actor phase. -/
theorem C3_witness :
    (TestResult.mk [] [] "").CountBoth
        ≤ (applyOps (TestResult.mk [] [] "") [TROp.add 5]).CountBoth ∧
    (foldAll (TestResult.mk [] [] "") [[Report.sample 0]]).CountBoth
        ≤ ([ActorIn.mk true 0 [InEv.data 3]] : List ActorIn).length :=
  ⟨C3_countBoth_monotone_and_bounded.1 (TestResult.mk [] [] "") [TROp.add 5],
   C3_countBoth_monotone_and_bounded.2 (fun p => p)
     [ActorIn.mk true 0 [InEv.data 3]] 1 [[Report.sample 0]] (by decide)⟩

/-- The final loginErrorCount of Connect's retry loop never exceeds the
bound it is compared against. -/
lemma connectLoop_fails_le (maxA : Nat) :
    ∀ (outs : List DialResult) (cnt used : Nat), cnt ≤ maxA →
      (connectLoop maxA outs cnt used).fails ≤ maxA := by
  intro outs
  induction outs with
  | nil =>
    intro cnt used hc
    rw [connectLoop.eq_def]
    split
    · simpa using hc
    · simpa using hc
  | cons o rest ih =>
    intro cnt used hc
    rw [connectLoop.eq_def]
    split
    · rename_i hlt
      cases o with
      | ok => simpa using hc
      | overload => exact ih cnt (used + 1) hc
      | fail => exact ih (cnt + 1) (used + 1) (by omega)
    · simpa using hc

/-- Connect gives up with a hard error exactly when loginErrorCount has
reached MaxConnectionAttemts non-overload failures. -/
lemma connectLoop_hardError_fails (maxA : Nat) :
    ∀ (outs : List DialResult) (cnt used : Nat), cnt ≤ maxA →
      (connectLoop maxA outs cnt used).kind = ConnKind.hardError →
      (connectLoop maxA outs cnt used).fails = maxA := by
  intro outs
  induction outs with
  | nil =>
    intro cnt used hc hk
    rw [connectLoop.eq_def] at hk ⊢
    split at hk
    · simp at hk
    · rename_i hge
      rw [if_neg hge]
      show cnt = maxA
      omega
  | cons o rest ih =>
    intro cnt used hc hk
    rw [connectLoop.eq_def] at hk ⊢
    split at hk
    · rename_i hlt
      rw [if_pos hlt]
      cases o with
      | ok => simp at hk
      | overload => exact ih cnt (used + 1) hc hk
      | fail => exact ih (cnt + 1) (used + 1) (by omega) hk
    · rename_i hge
      rw [if_neg hge]
      show cnt = maxA
      omega

/-- A run of n consecutive overload (503) outcomes leaves Connect's
loop still running after n attempts, with loginErrorCount unchanged:
overload failures never count toward the bound. -/
lemma connectLoop_overload_running (maxA : Nat) :
    ∀ (n cnt used : Nat), cnt < maxA →
      connectLoop maxA (List.replicate n DialResult.overload) cnt used
        = ConnRes.mk ConnKind.running (used + n) cnt := by
  intro n
  induction n with
  | zero =>
    intro cnt used h
    rw [connectLoop.eq_def, if_pos h]
    simp [List.replicate]
  | succ m ih =>
    intro cnt used h
    rw [List.replicate_succ, connectLoop.eq_def, if_pos h]
    show connectLoop maxA (List.replicate m DialResult.overload) cnt (used + 1) = _
    rw [ih cnt (used + 1) h]
    have harith : used + 1 + m = used + (m + 1) := by omega
    rw [harith]

/-- The number of POST attempts Login makes is bounded: every retried
attempt raises loginErrorCount toward MaxLoginAttemts. -/
lemma loginLoop_used_le (maxA : Nat) :
    ∀ (outs : List PostResult) (cnt used last : Nat), cnt ≤ maxA →
      (loginLoop maxA outs cnt used last).used ≤ used + (maxA - cnt) := by
  intro outs
  induction outs with
  | nil =>
    intro cnt used last hc
    rw [loginLoop.eq_def]
    split
    · simp
    · simp
  | cons o rest ih =>
    intro cnt used last hc
    rw [loginLoop.eq_def]
    split
    · rename_i hlt
      cases o with
      | transportErr =>
        show used + 1 ≤ used + (maxA - cnt)
        omega
      | status c =>
        show (if c < 500 ∨ 600 ≤ c then
                if c = 200 then LoginRes.mk LoginKind.ok (used + 1)
                else LoginRes.mk (LoginKind.hardError c) (used + 1)
              else loginLoop maxA rest (cnt + 1) (used + 1) c).used
            ≤ used + (maxA - cnt)
        split
        · split
          · show used + 1 ≤ used + (maxA - cnt)
            omega
          · show used + 1 ≤ used + (maxA - cnt)
            omega
        · have := ih (cnt + 1) (used + 1) c (by omega)
          omega
    · show used ≤ used + (maxA - cnt)
      omega

/-- Claim C5 (amended): only NON-overload dial failures count toward
MaxConnectionAttemts - Connect's final failure counter never exceeds
the bound and a hard error is reported exactly when the bound is
exhausted, but a server-overload (503) outcome retries without
incrementing the counter, so overload retries are unbounded (after n
consecutive overloads the loop is still running); Login makes at most
MaxLoginAttemts POST attempts, retrying only server-side (5xx)
responses, and then reports a hard error. -/
theorem C5_bounded_retries_amended :
    (∀ outs : List DialResult,
        (connectLoop MaxConnectionAttemts outs 0 0).fails ≤ MaxConnectionAttemts) ∧
    (∀ outs : List DialResult,
        (connectLoop MaxConnectionAttemts outs 0 0).kind = ConnKind.hardError →
        (connectLoop MaxConnectionAttemts outs 0 0).fails = MaxConnectionAttemts) ∧
    (∀ n : Nat,
        connectLoop MaxConnectionAttemts (List.replicate n DialResult.overload) 0 0
          = ConnRes.mk ConnKind.running n 0) ∧
    (∀ (outs : List PostResult) (last : Nat),
        (loginLoop MaxLoginAttemts outs 0 0 last).used ≤ MaxLoginAttemts) := by
  refine ⟨fun outs => connectLoop_fails_le _ outs 0 0 (by omega),
    fun outs h => connectLoop_hardError_fails _ outs 0 0 (by omega) h,
    fun n => by simpa using connectLoop_overload_running MaxConnectionAttemts n 0 0 (by decide),
    fun outs last => by simpa using loginLoop_used_le _ outs 0 0 last (by omega)⟩

/-- Witness for C5 at three consecutive non-overload dial failures:
Connect gives up with its counter exactly at the bound. -/
theorem C5_witness :
    (connectLoop MaxConnectionAttemts
        [DialResult.fail, DialResult.fail, DialResult.fail] 0 0).fails
      = MaxConnectionAttemts :=
  C5_bounded_retries_amended.2.1 [DialResult.fail, DialResult.fail, DialResult.fail]
    (by decide)

/-- With zero workers no action of the pool is enabled: the feeder's
send on toWorker has no receiver and blocks forever. -/
lemma poolStep_no_workers (variant : Bool) (n : Nat) (hn : 1 ≤ n) :
    ∀ a : PoolAct, poolStep (poolInit variant n 0) a = none := by
  intro a
  cases a <;> simp [poolStep, poolInit] <;> omega

/-- Claim C6: invoking a pool with parallelism 0 on a non-empty client
batch does NOT fail fast - the model shows the stronger fact that no
step is ever possible: under every schedule the state stays the initial
state, the done flag never becomes true and no report is ever
delivered (a silent hang). -/
theorem C6_pool_parallelism_zero_hangs (variant : Bool) (n : Nat)
    (acts : List PoolAct) (hn : 1 ≤ n) :
    poolRun (poolInit variant n 0) acts = poolInit variant n 0 ∧
    (poolRun (poolInit variant n 0) acts).main ≠ MainSt.doneSet ∧
    (poolRun (poolInit variant n 0) acts).delivered = 0 := by
  have hrun : poolRun (poolInit variant n 0) acts = poolInit variant n 0 := by
    induction acts with
    | nil => rfl
    | cons a rest ih =>
      show poolRun ((poolStep (poolInit variant n 0) a).getD (poolInit variant n 0)) rest
        = poolInit variant n 0
      rw [poolStep_no_workers variant n hn a]
      exact ih
  refine ⟨hrun, ?_, ?_⟩ <;> rw [hrun] <;> simp [poolInit]

/-- Witness for C6: one client, zero workers, a schedule trying the
close action - nothing moves. -/
theorem C6_witness :
    poolRun (poolInit true 1 0) [PoolAct.closeCh] = poolInit true 1 0 ∧
    (poolRun (poolInit true 1 0) [PoolAct.closeCh]).main ≠ MainSt.doneSet ∧
    (poolRun (poolInit true 1 0) [PoolAct.closeCh]).delivered = 0 :=
  C6_pool_parallelism_zero_hangs true 1 [PoolAct.closeCh] (by decide)

/-- Claim C7 (amended): OneWriteTest aborts fatally whenever its FIRST
client is not a connected administrative client - in particular for
every non-empty client set containing no connected administrative
client at all (so that direction of the claim holds: no hang, no
silently-empty result) - and it issues exactly one write, through the
first client, exactly when the first client qualifies; a qualifying
client at a later position does not prevent the fatal abort. -/
theorem C7_first_client_precondition (clients : List ClientInfo) (sendOk : Bool) :
    (clients ≠ [] → (∀ c ∈ clients, qualifies c = false) →
        OneWriteTestStart clients sendOk = OWOutcome.fatalPrecondition) ∧
    (∀ (c : ClientInfo) (rest : List ClientInfo), clients = c :: rest →
        qualifies c = true → sendOk = true →
        OneWriteTestStart clients sendOk = OWOutcome.wrote 0 1) ∧
    (∀ (c : ClientInfo) (rest : List ClientInfo), clients = c :: rest →
        qualifies c = false →
        OneWriteTestStart clients sendOk = OWOutcome.fatalPrecondition) := by
  cases clients with
  | nil =>
    refine ⟨fun h _ => absurd rfl h, ?_, ?_⟩ <;> intro c rest h <;> simp at h
  | cons c0 rest0 =>
    refine ⟨?_, ?_, ?_⟩
    · intro _ hall
      have h0 : qualifies c0 = false := hall c0 (by simp)
      simp [OneWriteTestStart, h0]
    · intro c rest heq hq hs
      injection heq with h1 h2
      subst h1
      simp [OneWriteTestStart, hq, hs]
    · intro c rest heq hq
      injection heq with h1 h2
      subst h1
      simp [OneWriteTestStart, hq]

/-- Witness for C7: a qualifying first client issues exactly one write;
a non-qualifying first client aborts fatally. -/
theorem C7_witness :
    OneWriteTestStart [ClientInfo.mk true true true] true = OWOutcome.wrote 0 1 ∧
    OneWriteTestStart [ClientInfo.mk false true true] true = OWOutcome.fatalPrecondition :=
  ⟨(C7_first_client_precondition [ClientInfo.mk true true true] true).2.1
      (ClientInfo.mk true true true) [] rfl (by decide) rfl,
   (C7_first_client_precondition [ClientInfo.mk false true true] true).1
      (by simp) (by decide)⟩

/-- Claim C8: with a non-zero expected checksum supplied to the
per-client listener, five actors of which four deliver a payload
hashing to the expected value and the fifth a payload hashing
differently produce four success samples and exactly one error, and
folding all reports into a TestResult records Count = 4 and
ErrCount = 1 - the mismatch is an aggregation error, not an abort, and
the other actors' collection is unaffected. -/
theorem C8_checksum_mismatch_counts (hash : Nat → Nat) (p q : Nat)
    (d1 d2 d3 d4 d5 : Int) (hne : hash p ≠ hash q) (h0 : hash p ≠ 0) :
    collectWith hash 1 (hash p)
      [ActorIn.mk true d1 [InEv.data p], ActorIn.mk true d2 [InEv.data p],
       ActorIn.mk true d3 [InEv.data p], ActorIn.mk true d4 [InEv.data p],
       ActorIn.mk true d5 [InEv.data q]]
      = some [[Report.sample d1], [Report.sample d2], [Report.sample d3],
              [Report.sample d4],
              [Report.error (ErrData.hashMismatch (hash p) (hash q))]] ∧
    (foldAll (TestResult.mk [] [] "")
        [[Report.sample d1], [Report.sample d2], [Report.sample d3],
         [Report.sample d4],
         [Report.error (ErrData.hashMismatch (hash p) (hash q))]]).Count = 4 ∧
    (foldAll (TestResult.mk [] [] "")
        [[Report.sample d1], [Report.sample d2], [Report.sample d3],
         [Report.sample d4],
         [Report.error (ErrData.hashMismatch (hash p) (hash q))]]).ErrCount = 1 := by
  refine ⟨?_, rfl, rfl⟩
  simp [collectWith, ExpectDataRun, expectLoop, hne, h0]

/-- Witness for C8 with the identity hash, payloads 1 (expected) and 2
(mismatching). -/
theorem C8_witness :
    collectWith (fun p => p) 1 1
      [ActorIn.mk true 0 [InEv.data 1], ActorIn.mk true 0 [InEv.data 1],
       ActorIn.mk true 0 [InEv.data 1], ActorIn.mk true 0 [InEv.data 1],
       ActorIn.mk true 0 [InEv.data 2]]
      = some [[Report.sample 0], [Report.sample 0], [Report.sample 0],
              [Report.sample 0], [Report.error (ErrData.hashMismatch 1 2)]] ∧
    (foldAll (TestResult.mk [] [] "")
        [[Report.sample 0], [Report.sample 0], [Report.sample 0],
         [Report.sample 0], [Report.error (ErrData.hashMismatch 1 2)]]).Count = 4 ∧
    (foldAll (TestResult.mk [] [] "")
        [[Report.sample 0], [Report.sample 0], [Report.sample 0],
         [Report.sample 0], [Report.error (ErrData.hashMismatch 1 2)]]).ErrCount = 1 :=
  C8_checksum_mismatch_counts (fun p => p) 1 2 0 0 0 0 0 (by decide) (by decide)

/-- Setting one worker slot exchanges its old state for the new one in
the per-state worker counts. -/
lemma countW_set (ws : List WorkerSt) :
    ∀ (i : Nat) (x y t : WorkerSt), ws.get? i = some x →
      countW (ws.set i y) t + (if x = t then 1 else 0)
        = countW ws t + (if y = t then 1 else 0) := by
  induction ws with
  | nil => intro i x y t h; simp at h
  | cons a rest ih =>
    intro i x y t h
    cases i with
    | zero =>
      rw [List.get?_cons_zero] at h
      injection h with h'
      subst h'
      simp only [List.set_cons_zero, countW]
      omega
    | succ j =>
      rw [List.get?_cons_succ] at h
      simp only [List.set_cons_succ, countW]
      have := ih j x y t h
      omega

/-- A worker observed in state x makes the count of x positive. -/
lemma countW_get_pos (ws : List WorkerSt) :
    ∀ (i : Nat) (x : WorkerSt), ws.get? i = some x → 1 ≤ countW ws x := by
  induction ws with
  | nil => intro i x h; simp at h
  | cons a rest ih =>
    intro i x h
    cases i with
    | zero =>
      rw [List.get?_cons_zero] at h
      injection h with h'
      subst h'
      show 1 ≤ (if a = a then 1 else 0) + countW rest a
      simp
    | succ j =>
      rw [List.get?_cons_succ] at h
      have := ih j x h
      simp only [countW]
      omega

/-- Worker-state counts of the all-idle initial worker list. -/
lemma countW_replicate (p : Nat) (w t : WorkerSt) :
    countW (List.replicate p w) t = if w = t then p else 0 := by
  induction p with
  | zero => simp [List.replicate, countW]
  | succ q ih =>
    rw [List.replicate_succ]
    simp only [countW, ih]
    by_cases hwt : w = t <;> simp [hwt] <;> omega

/-- The invariant holds in the initial pool state. -/
lemma poolInv_init (variant : Bool) (n p : Nat) : PoolInv (poolInit variant n p) := by
  refine ⟨?_, ?_, ?_⟩
  · show countW (List.replicate p WorkerSt.idle) WorkerSt.busy + 0 = 0
    simp [countW_replicate]
  · show (0 : Nat) ≤ n
    omega
  · intro hv
    refine ⟨?_, ?_, ?_⟩
    · show countW (List.replicate p WorkerSt.idle) WorkerSt.donePend ≤ 0
      simp [countW_replicate]
    · show (n : Int) + ((0 : Nat) : Int)
        = (n : Int) + (countW (List.replicate p WorkerSt.idle) WorkerSt.donePend : Int)
      simp [countW_replicate]
    · intro hd
      simp [poolInit] at hd

/-- Every enabled pool step preserves the invariant. -/
lemma poolInv_step (s s' : PoolState) (a : PoolAct) (h : PoolInv s)
    (hs : poolStep s a = some s') : PoolInv s' := by
  obtain ⟨hA, hB, hC⟩ := h
  cases a with
  | handoff w =>
    simp only [poolStep] at hs
    split at hs
    · rename_i hcond
      obtain ⟨hm, hlt, hw⟩ := hcond
      injection hs with hs'
      subst hs'
      have hb := countW_set s.workers w WorkerSt.idle WorkerSt.busy WorkerSt.busy hw
      have hp := countW_set s.workers w WorkerSt.idle WorkerSt.busy WorkerSt.donePend hw
      simp at hb hp
      refine ⟨?_, ?_, ?_⟩
      · show countW (s.workers.set w WorkerSt.busy) WorkerSt.busy + s.delivered = s.sent + 1
        omega
      · show s.sent + 1 ≤ s.n
        omega
      · intro hv
        obtain ⟨hP, hW, hD⟩ := hC hv
        refine ⟨?_, ?_, ?_⟩
        · show countW (s.workers.set w WorkerSt.busy) WorkerSt.donePend ≤ s.delivered
          omega
        · show s.wg + (s.delivered : Int)
            = (s.n : Int) + (countW (s.workers.set w WorkerSt.busy) WorkerSt.donePend : Int)
          omega
        · intro hd
          rw [hm] at hd
          simp at hd
    · simp at hs
  | closeCh =>
    simp only [poolStep] at hs
    split at hs
    · rename_i hcond
      injection hs with hs'
      subst hs'
      refine ⟨hA, hB, ?_⟩
      intro hv
      obtain ⟨hP, hW, hD⟩ := hC hv
      refine ⟨hP, hW, ?_⟩
      intro hd
      simp at hd
    · simp at hs
  | deliver w =>
    simp only [poolStep] at hs
    split at hs
    · rename_i hw
      injection hs with hs'
      subst hs'
      cases hv : s.variant with
      | true =>
        have hb := countW_set s.workers w WorkerSt.busy WorkerSt.donePend WorkerSt.busy hw
        have hp := countW_set s.workers w WorkerSt.busy WorkerSt.donePend WorkerSt.donePend hw
        have hpos := countW_get_pos s.workers w WorkerSt.busy hw
        simp at hb hp
        refine ⟨?_, ?_, ?_⟩
        · show countW (s.workers.set w WorkerSt.donePend) WorkerSt.busy + (s.delivered + 1)
            = s.sent
          omega
        · show s.sent ≤ s.n
          omega
        · intro _
          obtain ⟨hP, hW, hD⟩ := hC hv
          refine ⟨?_, ?_, ?_⟩
          · show countW (s.workers.set w WorkerSt.donePend) WorkerSt.donePend
              ≤ s.delivered + 1
            omega
          · show s.wg + ((s.delivered + 1 : Nat) : Int)
              = (s.n : Int)
                + (countW (s.workers.set w WorkerSt.donePend) WorkerSt.donePend : Int)
            push_cast
            push_cast at hW
            omega
          · intro hd
            have hn := hD hd
            show s.delivered + 1 = s.n
            omega
      | false =>
        have hb := countW_set s.workers w WorkerSt.busy WorkerSt.idle WorkerSt.busy hw
        simp at hb
        refine ⟨?_, ?_, ?_⟩
        · show countW (s.workers.set w WorkerSt.idle) WorkerSt.busy + (s.delivered + 1)
            = s.sent
          omega
        · show s.sent ≤ s.n
          omega
        · intro hcontra
          simp at hcontra
    · simp at hs
  | doneCall w =>
    simp only [poolStep] at hs
    split at hs
    · rename_i hcond
      obtain ⟨hvv, hw⟩ := hcond
      injection hs with hs'
      subst hs'
      have hb := countW_set s.workers w WorkerSt.donePend WorkerSt.idle WorkerSt.busy hw
      have hp := countW_set s.workers w WorkerSt.donePend WorkerSt.idle WorkerSt.donePend hw
      have hpos := countW_get_pos s.workers w WorkerSt.donePend hw
      simp at hb hp
      refine ⟨?_, ?_, ?_⟩
      · show countW (s.workers.set w WorkerSt.idle) WorkerSt.busy + s.delivered = s.sent
        omega
      · show s.sent ≤ s.n
        omega
      · intro hv
        obtain ⟨hP, hW, hD⟩ := hC hv
        refine ⟨?_, ?_, ?_⟩
        · show countW (s.workers.set w WorkerSt.idle) WorkerSt.donePend ≤ s.delivered
          omega
        · show s.wg - 1 + (s.delivered : Int)
            = (s.n : Int) + (countW (s.workers.set w WorkerSt.idle) WorkerSt.donePend : Int)
          push_cast
          push_cast at hW
          omega
        · exact hD
    · simp at hs
  | exitW w =>
    simp only [poolStep] at hs
    split at hs
    · rename_i hcond
      obtain ⟨hm, hw⟩ := hcond
      injection hs with hs'
      subst hs'
      have hb := countW_set s.workers w WorkerSt.idle WorkerSt.exited WorkerSt.busy hw
      have hp := countW_set s.workers w WorkerSt.idle WorkerSt.exited WorkerSt.donePend hw
      simp at hb hp
      refine ⟨?_, ?_, ?_⟩
      · show countW (s.workers.set w WorkerSt.exited) WorkerSt.busy + s.delivered = s.sent
        omega
      · show s.sent ≤ s.n
        omega
      · intro hv
        obtain ⟨hP, hW, hD⟩ := hC hv
        refine ⟨?_, ?_, ?_⟩
        · show countW (s.workers.set w WorkerSt.exited) WorkerSt.donePend ≤ s.delivered
          omega
        · show (if s.variant then s.wg else s.wg - 1) + (s.delivered : Int)
            = (s.n : Int)
              + (countW (s.workers.set w WorkerSt.exited) WorkerSt.donePend : Int)
          rw [hv]
          simp only [if_true]
          push_cast
          push_cast at hW
          omega
        · exact hD
    · simp at hs
  | waitReturn =>
    simp only [poolStep] at hs
    split at hs
    · rename_i hcond
      obtain ⟨hm, hwg⟩ := hcond
      injection hs with hs'
      subst hs'
      refine ⟨hA, hB, ?_⟩
      intro hv
      obtain ⟨hP, hW, hD⟩ := hC hv
      refine ⟨hP, hW, ?_⟩
      intro _
      show s.delivered = s.n
      rw [hwg] at hW
      push_cast at hW
      omega
    · simp at hs

/-- Every pool step keeps the variant and the batch size. -/
lemma poolStep_keeps (s s' : PoolState) (a : PoolAct)
    (hs : poolStep s a = some s') : s'.variant = s.variant ∧ s'.n = s.n := by
  cases a <;> simp only [poolStep] at hs <;> split at hs <;>
    first
      | (injection hs with h; subst h; exact ⟨rfl, rfl⟩)
      | simp at hs

/-- Runs keep the variant and the batch size. -/
lemma poolRun_keeps (acts : List PoolAct) :
    ∀ s : PoolState, (poolRun s acts).variant = s.variant ∧ (poolRun s acts).n = s.n := by
  induction acts with
  | nil => intro s; exact ⟨rfl, rfl⟩
  | cons a rest ih =>
    intro s
    have hstep : poolRun s (a :: rest) = poolRun ((poolStep s a).getD s) rest := rfl
    rw [hstep]
    cases hs : poolStep s a with
    | none => rw [Option.getD_none]; exact ih s
    | some s' =>
      rw [Option.getD_some]
      have hk := poolStep_keeps s s' a hs
      have h2 := ih s'
      exact ⟨h2.1.trans hk.1, h2.2.trans hk.2⟩

/-- The invariant holds along every run. -/
lemma poolInv_run (acts : List PoolAct) :
    ∀ s : PoolState, PoolInv s → PoolInv (poolRun s acts) := by
  induction acts with
  | nil => intro s h; exact h
  | cons a rest ih =>
    intro s h
    have hstep : poolRun s (a :: rest) = poolRun ((poolStep s a).getD s) rest := rfl
    rw [hstep]
    cases hs : poolStep s a with
    | none => rw [Option.getD_none]; exact ih s h
    | some s' => rw [Option.getD_some]; exact ih s' (poolInv_step s s' a h hs)

/-- In the connectClients variant (one wg.Done per client, after that
client's report was delivered) the done flag is observed true only
when all n reports have been delivered: under every schedule, a state
with the flag set has delivered = n. -/
theorem connectClients_flag_after_all_reports (n p : Nat) (acts : List PoolAct)
    (hdone : (poolRun (poolInit true n p) acts).main = MainSt.doneSet) :
    (poolRun (poolInit true n p) acts).delivered = n := by
  have hinv := poolInv_run acts (poolInit true n p) (poolInv_init true n p)
  have hk := poolRun_keeps acts (poolInit true n p)
  obtain ⟨hA, hB, hC⟩ := hinv
  have hv : (poolRun (poolInit true n p) acts).variant = true := hk.1
  obtain ⟨hP, hW, hD⟩ := hC hv
  exact (hD hdone).trans hk.2

/-- In both pool variants at most n reports are ever delivered: each of
the n clients is handed to exactly one worker and yields one report. -/
theorem pool_delivered_le_batch (variant : Bool) (n p : Nat) (acts : List PoolAct) :
    (poolRun (poolInit variant n p) acts).delivered ≤ n := by
  have hinv := poolInv_run acts (poolInit variant n p) (poolInv_init variant n p)
  have hk := poolRun_keeps acts (poolInit variant n p)
  obtain ⟨hA, hB, _⟩ := hinv
  have hle : (poolRun (poolInit variant n p) acts).delivered
      ≤ (poolRun (poolInit variant n p) acts).n := by omega
  rw [hk.2] at hle
  exact hle
